import Mathlib

/-!
Shallow embedding of the workflow-builder core (connection validation,
input resolution, execution orchestration, undo/redo history) together
with proofs of the specified properties.

Sources embedded:
  * src/types/nodes.ts                      — node kinds and data variants
  * src/lib/utils/connectionValidation.ts   — handle compatibility + cycle check
  * src/constants/design-tokens.ts          — collectLLMInputs, executeLLMNode
  * the undo/redo hook                      — saveState / undo / redo / pushToFuture

Nullable TS strings (`string | null | undefined`) are embedded as
`Option String`; JS truthiness of a string (non-null and non-empty) is made
explicit at each use site.
-/

set_option maxHeartbeats 1000000

namespace WorkflowBuilder

/-- Node data variants (src/types/nodes.ts).  `text` is the shape shared by
TextNodeData and SystemPromptNodeData (`label`, `content`); `image` is
ImageNodeData (`imageData`, `fileName`, `mimeType`, each nullable); `llm` is
LLMNodeData and `imgDescribe` is ImageDescribeNodeData. -/
inductive NodeData where
  | text (label content : String)
  | image (label : String) (imageData fileName mimeType : Option String)
  | llm (label model output : String) (isLoading : Bool) (error : Option String)
  | imgDescribe (label model prompt output : String) (isLoading : Bool) (error : Option String)
deriving DecidableEq, Repr

/-- Field access `data.content` after a cast to TextNodeData: present only on
the `text`-shaped variant, `undefined` (none) otherwise. -/
def NodeData.contentField : NodeData → Option String
  | .text _ c => some c
  | _ => none

/-- Field access `data.output` after a cast to LLMNodeData: both LLMNodeData
and ImageDescribeNodeData carry `output`. -/
def NodeData.outputField : NodeData → Option String
  | .llm _ _ o _ _ => some o
  | .imgDescribe _ _ _ o _ _ => some o
  | _ => none

/-- Field access `data.model`: present on LLMNodeData and ImageDescribeNodeData. -/
def NodeData.modelField : NodeData → Option String
  | .llm _ m _ _ _ => some m
  | .imgDescribe _ m _ _ _ _ => some m
  | _ => none

/-- Field access `data.prompt`: present only on ImageDescribeNodeData. -/
def NodeData.promptField : NodeData → Option String
  | .imgDescribe _ _ p _ _ _ => some p
  | _ => none

/-- Field access `data.imageData` (ImageNodeData, nullable). -/
def NodeData.imageDataField : NodeData → Option String
  | .image _ img _ _ => img
  | _ => none

/-- Field access `data.mimeType` (ImageNodeData, nullable). -/
def NodeData.mimeTypeField : NodeData → Option String
  | .image _ _ _ m => m
  | _ => none

/-- A workflow node: `id`, `type` (one of the NODE_TYPES strings "text",
"image", "system", "llm", "imgDescribe" — kept as a string, as in the code),
and its data.  The position is opaque to the core and omitted. -/
structure Node where
  id : String
  type : String
  data : NodeData
deriving DecidableEq, Repr

/-- A workflow edge: `id`, `source`, `target` node ids and the nullable
`targetHandle` (the logical input slot on the target the edge feeds). -/
structure Edge where
  id : String
  source : String
  target : String
  targetHandle : Option String
deriving DecidableEq, Repr

/-- A React Flow connection candidate: all three fields nullable. -/
structure Connection where
  source : Option String
  target : Option String
  targetHandle : Option String
deriving DecidableEq, Repr

/-! ## Connection validator (src/lib/utils/connectionValidation.ts) -/

/-- NODE_OUTPUT_TYPE record: map from node type to its output data type.
Lookup of an unknown key yields `undefined` (none). -/
def NODE_OUTPUT_TYPE : String → Option String
  | "text" => some "text"
  | "image" => some "image"
  | "system" => some "system"
  | "llm" => some "text"
  | "imgDescribe" => some "text"
  | _ => none

/-- getNodeOutputType: `if (!nodeType) return null; return NODE_OUTPUT_TYPE[nodeType] ?? null`.
A missing (`undefined`) or empty node type is falsy. -/
def getNodeOutputType (nodeType : Option String) : Option String :=
  match nodeType with
  | none => none
  | some t => if t = "" then none else NODE_OUTPUT_TYPE t

/-- isHandleCompatible: fail open when the source output type is unknown or
when the target handle is falsy or the sentinel "output"; otherwise require
the output type to equal the target handle id. -/
def isHandleCompatible (sourceNodeType : Option String) (targetHandleId : Option String) : Bool :=
  match getNodeOutputType sourceNodeType with
  | none => true
  | some outputType =>
    match targetHandleId with
    | none => true
    | some h => if h = "" then true else if h = "output" then true else outputType == h

/-- Adjacency list built from the edge array: successors of `nodeId` are the
targets of its outgoing edges, in edge-array order. -/
def adjacencyList (edges : List Edge) (nodeId : String) : List String :=
  (edges.filter (fun e => e.source == nodeId)).map (fun e => e.target)

/-- One step of the stack-based DFS of wouldCreateCycle.  The list head is the
stack top (JS `pop` takes the array end); pushing the not-yet-visited
neighbours one by one onto the array end leaves them reversed at the head.
The second component of the result records the final visited set (a local
variable in the source); the source's return value is the first component.
The fuel argument bounds the iteration count of the source's while-loop;
`wouldCreateCycle` passes enough fuel for the loop to run to completion. -/
def dfsLoop (edges : List Edge) (sourceId : String) :
    Nat → List String → List String → Bool × List String
  | 0, _, visited => (false, visited)
  | _ + 1, [], visited => (false, visited)
  | fuel + 1, current :: rest, visited =>
    if current = sourceId then (true, visited)
    else if current ∈ visited then dfsLoop edges sourceId fuel rest visited
    else
      let visited' := current :: visited
      let pushes := ((adjacencyList edges current).filter (fun n => !(visited'.contains n))).reverse
      dfsLoop edges sourceId fuel (pushes ++ rest) visited'

/-- All node ids the DFS can ever place on its stack: the initial `targetId`
together with the endpoints of every edge. -/
def cycleUniverse (targetId : String) (edges : List Edge) : Finset String :=
  edges.foldr (fun e s => insert e.source (insert e.target s)) {targetId}

/-- wouldCreateCycle: a self-loop is a cycle; otherwise run a DFS from
`targetId` looking for `sourceId` over the existing edges. -/
def wouldCreateCycle (sourceId targetId : String) (edges : List Edge) : Bool :=
  if sourceId = targetId then true
  else
    let fuel := (cycleUniverse targetId edges).card * (edges.length + 1) + 2
    (dfsLoop edges sourceId fuel [targetId] []).1

/-- isValidConnection (canvas hook): reject when source or target is falsy,
when the handles are incompatible, or when adding the edge would close a
cycle. -/
def isValidConnection (c : Connection) (currentNodes : List Node) (currentEdges : List Edge) : Bool :=
  match c.source, c.target with
  | some source, some target =>
    if source = "" ∨ target = "" then false
    else
      let sourceNode := currentNodes.find? (fun n => n.id == source)
      if !isHandleCompatible (sourceNode.map (fun n => n.type)) c.targetHandle then false
      else if wouldCreateCycle source target currentEdges then false
      else true
  | _, _ => false

/-! ## Input resolver (collectLLMInputs, src/constants/design-tokens.ts) -/

/-- CollectedInputs: the transient bundle the resolver builds.  The TS
`string | undefined` fields are `Option String`. -/
structure CollectedInputs where
  systemPrompt : Option String
  userMessage : Option String
  images : List String
  errors : List String
deriving DecidableEq, Repr

/-- The no-inputs error for a non-ImageDescribe target. -/
def noInputsTextMsg : String := "No inputs connected. Connect a Text node to provide a prompt."

/-- The no-inputs error for an ImageDescribe target. -/
def noInputsImageMsg : String := "No inputs connected. Connect Image nodes to provide description."

/-- The missing-model-instruction error of the ImageDescribe post-step. -/
def instructionMsg : String :=
  "Image Describe node requires a Model instruction. You can set it in the node's properties panel."

/-- The missing-images error of the ImageDescribe post-step. -/
def noImagesMsg : String :=
  "No images connected. Connect an Image node to provide an image for description."

/-- The generic final-validation error. -/
def noTextMsg : String := "No text input provided. Connect a Text node to the text input handle."

/-- The accumulation pattern `if (result.x) result.x = current + blank line + piece
else result.x = piece` — a falsy (absent or empty) accumulator is overwritten. -/
def appendChunk (cur : Option String) (piece : String) : Option String :=
  match cur with
  | some s => if s = "" then some piece else some (s ++ "\n\n" ++ piece)
  | none => some piece

/-- The body of the resolver's per-edge loop.  A missing source node is
skipped (console.warn + continue); otherwise dispatch on the edge's
targetHandle: "system" accepts content from system/text sources, "text"
accepts content from text/system sources or output from llm sources,
"image" accepts imageData from image sources, anything else is skipped. -/
def processEdge (nodes : List Node) (acc : CollectedInputs) (edge : Edge) : CollectedInputs :=
  match nodes.find? (fun n => n.id == edge.source) with
  | none => acc
  | some sourceNode =>
    match edge.targetHandle with
    | some "system" =>
      if sourceNode.type = "system" ∨ sourceNode.type = "text" then
        match sourceNode.data.contentField with
        | some c =>
          if c ≠ "" ∧ c.trim ≠ "" then
            { acc with systemPrompt := appendChunk acc.systemPrompt c.trim }
          else acc
        | none => acc
      else acc
    | some "text" =>
      if sourceNode.type = "text" ∨ sourceNode.type = "system" then
        match sourceNode.data.contentField with
        | some c =>
          if c ≠ "" ∧ c.trim ≠ "" then
            { acc with userMessage := appendChunk acc.userMessage c.trim }
          else acc
        | none => acc
      else if sourceNode.type = "llm" then
        match sourceNode.data.outputField with
        | some o =>
          if o ≠ "" ∧ o.trim ≠ "" then
            { acc with userMessage := appendChunk acc.userMessage o.trim }
          else acc
        | none => acc
      else acc
    | some "image" =>
      if sourceNode.type = "image" then
        match sourceNode.data.imageDataField with
        | some img =>
          if img ≠ "" then
            let dataUri :=
              match sourceNode.data.mimeTypeField with
              | some m =>
                if m ≠ "" then "data:" ++ m ++ ";base64," ++ img
                else "data:image/jpeg;base64," ++ img
              | none => "data:image/jpeg;base64," ++ img
            { acc with images := acc.images ++ [dataUri] }
          else acc
        | none => acc
      else acc
    | _ => acc

/-- The ImageDescribe post-step: if the target node is an ImageDescribe node,
fold its own `prompt` field into the user message (or record the
missing-instruction error), then require a non-empty image list. -/
def imgDescribePostStep (tgt : Option Node) (acc : CollectedInputs) : CollectedInputs :=
  match tgt with
  | some n =>
    if n.type = "imgDescribe" then
      let p := n.data.promptField
      let promptOk : Bool :=
        match p with
        | some s => decide (s ≠ "") && decide (0 < s.trim.length)
        | none => false
      let acc1 :=
        if promptOk then
          { acc with userMessage := appendChunk acc.userMessage ((p.getD "").trim) }
        else { acc with errors := acc.errors ++ [instructionMsg] }
      if acc1.images.isEmpty then { acc1 with errors := acc1.errors ++ [noImagesMsg] }
      else acc1
    else acc
  | none => acc

/-- The final validation of collectLLMInputs, exactly as written in the code:
`!result.userMessage || (result.userMessage.trim().length === 0 &&
(!node || node.type !== NODE_TYPES.IMG_DESCRIBE))`. -/
def finalCheckFires (tgt : Option Node) (userMessage : Option String) : Bool :=
  match userMessage with
  | none => true
  | some s =>
    if s = "" then true
    else
      decide (s.trim.length = 0) &&
        (match tgt with | none => true | some n => decide (n.type ≠ "imgDescribe"))

/-- collectLLMInputs: find the target node and its incoming edges; with no
incoming edges return a single context-appropriate error; otherwise process
each incoming edge in edge-array order, run the ImageDescribe post-step, and
apply the final validation. -/
def collectLLMInputs (llmNodeId : String) (nodes : List Node) (edges : List Edge) :
    CollectedInputs :=
  let node := nodes.find? (fun n => n.id == llmNodeId)
  let incomingEdges := edges.filter (fun e => e.target == llmNodeId)
  if incomingEdges.isEmpty then
    { systemPrompt := none, userMessage := none, images := [],
      errors := [match node with
        | some n => if n.type = "imgDescribe" then noInputsImageMsg else noInputsTextMsg
        | none => noInputsTextMsg] }
  else
    let afterEdges := incomingEdges.foldl (processEdge nodes)
      { systemPrompt := none, userMessage := none, images := [], errors := [] }
    let afterPost := imgDescribePostStep node afterEdges
    if finalCheckFires node afterPost.userMessage then
      { afterPost with errors := afterPost.errors ++ [noTextMsg] }
    else afterPost

/-! ## Execution orchestrator (executeLLMNode, src/constants/design-tokens.ts) -/

/-- Observable outcome of executeLLMNode up to (and excluding) the external
LLM call: either a failure returned without contacting the collaborator, or
the request handed to the collaborator (`fetch("/api/llm", ...)`).  The
`images` field is `none` when the collected list is empty, mirroring
`images.length > 0 ? images : undefined`. -/
inductive ExecOutcome where
  | failure (error : String)
  | callLLM (model : String) (systemPrompt userMessage : Option String)
      (images : Option (List String))
deriving DecidableEq, Repr

/-- executeLLMNode, up to the external call: look up the node (wrong kind or
missing gives the not-found failure), read the model (falsy model string
falls back to the default id), collect inputs, and short-circuit on the
first error. -/
def executeLLMNode (llmNodeId : String) (nodes : List Node) (edges : List Edge) : ExecOutcome :=
  match nodes.find? (fun n => n.id == llmNodeId) with
  | none => .failure "LLM node not found"
  | some llmNode =>
    if llmNode.type ≠ "llm" ∧ llmNode.type ≠ "imgDescribe" then
      .failure "LLM node not found"
    else
      let model :=
        match llmNode.data.modelField with
        | some m => if m = "" then "gemini-1.5-flash" else m
        | none => "gemini-1.5-flash"
      let inputs := collectLLMInputs llmNodeId nodes edges
      match inputs.errors with
      | e :: _ => .failure e
      | [] => .callLLM model inputs.systemPrompt inputs.userMessage
          (if inputs.images.isEmpty then none else some inputs.images)

/-! ## History manager (the useUndoRedo hook) -/

/-- A history entry: a snapshot of nodes and edges.  The source deep-clones
via a JSON round-trip; on the immutable embedding the clone is the value
itself. -/
structure HistoryEntry where
  nodes : List Node
  edges : List Edge
deriving DecidableEq, Repr

/-- The two history stacks.  `past` has its top at the array end (push/pop at
the end); `future` has its top at the array front (prepend, take the head). -/
structure History where
  past : List HistoryEntry
  future : List HistoryEntry
deriving DecidableEq, Repr

/-- MAX_HISTORY_SIZE. -/
def MAX_HISTORY_SIZE : Nat := 50

/-- saveState: append the deep-copied entry to `past`, keeping only the last
MAX_HISTORY_SIZE entries (`newPast.slice(-MAX_HISTORY_SIZE)`), and clear
`future` when `clearFutureStack` is set (its default at call sites is true). -/
def saveState (h : History) (nodes : List Node) (edges : List Edge)
    (clearFutureStack : Bool) : History :=
  let entry : HistoryEntry := ⟨nodes, edges⟩
  let newPast := h.past ++ [entry]
  let past :=
    if MAX_HISTORY_SIZE < newPast.length then newPast.drop (newPast.length - MAX_HISTORY_SIZE)
    else newPast
  { past := past, future := if clearFutureStack then [] else h.future }

/-- undo: pop the end of `past` and return it, or null when empty. -/
def undo (h : History) : Option HistoryEntry × History :=
  match h.past.getLast? with
  | none => (none, h)
  | some e => (some e, { h with past := h.past.dropLast })

/-- redo: take the front of `future` and return it, or null when empty. -/
def redo (h : History) : Option HistoryEntry × History :=
  match h.future with
  | [] => (none, h)
  | e :: rest => (some e, { h with future := rest })

/-- pushToFuture: deep-copy and prepend to `future`. -/
def pushToFuture (h : History) (nodes : List Node) (edges : List Edge) : History :=
  { h with future := (⟨nodes, edges⟩ : HistoryEntry) :: h.future }

/-- clearHistory: empty both stacks. -/
def clearHistory (_h : History) : History := ⟨[], []⟩

/-! ## Specification-side notions used by the theorems -/

/-- The last `n` elements of a list (what `slice(-n)` returns). -/
def takeLast {α : Type} (n : Nat) (l : List α) : List α := l.drop (l.length - n)

/-- One directed step of the graph: `b` is a successor of `a`. -/
def edgeStep (edges : List Edge) (a b : String) : Prop :=
  b ∈ adjacencyList edges a

/-- Reachability along directed edges (reflexive-transitive closure). -/
inductive Reach (edges : List Edge) : String → String → Prop
  | refl (a : String) : Reach edges a a
  | head {a b c : String} : edgeStep edges a b → Reach edges b c → Reach edges a c

/-- A directed cycle: some node has a nonempty directed path back to itself. -/
def hasCycle (edges : List Edge) : Prop :=
  ∃ a b, edgeStep edges a b ∧ Reach edges b a

/-- Acyclicity of the edge set. -/
def Acyclic (edges : List Edge) : Prop := ¬ hasCycle edges

/-- The edge the canvas onConnect builds for an accepted connection.  The id
embeds source and target ids (the Date.now() suffix of the source is
irrelevant to the graph structure). -/
def edgeOfConnection (s t : String) (th : Option String) : Edge :=
  ⟨"edge-" ++ s ++ "-" ++ t, s, t, th⟩

/-- Gate-kept edge addition, as the UI performs it: the candidate's edge is
added exactly when isValidConnection accepts the candidate. -/
def addValidated (nodes : List Node) (edges : List Edge) (c : Connection) : List Edge :=
  match c.source, c.target with
  | some s, some t =>
    if isValidConnection c nodes edges then edges ++ [edgeOfConnection s t c.targetHandle]
    else edges
  | _, _ => edges

end WorkflowBuilder

namespace WorkflowBuilder

/-! ## History manager lemmas -/

theorem takeLast_of_le {α : Type} (n : Nat) (l : List α) (h : l.length ≤ n) :
    takeLast n l = l := by
  unfold takeLast
  rw [Nat.sub_eq_zero_of_le h, List.drop_zero]

theorem takeLast_length_le {α : Type} (n : Nat) (l : List α) :
    (takeLast n l).length ≤ n := by
  unfold takeLast
  rw [List.length_drop]
  omega

theorem takeLast_append_of_le {α : Type} (n : Nat) (a b : List α) (h : n ≤ b.length) :
    takeLast n (a ++ b) = takeLast n b := by
  unfold takeLast
  rw [List.length_append]
  have hx : a.length + b.length - n = a.length + (b.length - n) := by omega
  rw [hx, List.drop_append]

theorem takeLast_takeLast_append {α : Type} (n : Nat) (l m : List α) :
    takeLast n (takeLast n l ++ m) = takeLast n (l ++ m) := by
  by_cases h : l.length ≤ n
  · rw [takeLast_of_le n l h]
  · have hlen : (takeLast n l).length = n := by
      unfold takeLast
      rw [List.length_drop]
      omega
    have h2 : n ≤ (takeLast n l ++ m).length := by
      rw [List.length_append, hlen]
      omega
    have h3 : l.take (l.length - n) ++ (takeLast n l ++ m) = l ++ m := by
      rw [← List.append_assoc]
      unfold takeLast
      rw [List.take_append_drop]
    calc takeLast n (takeLast n l ++ m)
        = takeLast n (l.take (l.length - n) ++ (takeLast n l ++ m)) :=
          (takeLast_append_of_le n _ _ h2).symm
      _ = takeLast n (l ++ m) := by rw [h3]

/-- saveState keeps exactly the last MAX_HISTORY_SIZE entries of the
extended past, and clears the future. -/
theorem saveState_past (h : History) (nodes : List Node) (edges : List Edge) :
    saveState h nodes edges true = ⟨takeLast 50 (h.past ++ [⟨nodes, edges⟩]), []⟩ := by
  unfold saveState takeLast MAX_HISTORY_SIZE
  simp only [if_true]
  split
  · rfl
  · rename_i hle
    rw [Nat.sub_eq_zero_of_le (by omega), List.drop_zero]

/-- Folding a sequence of saveState calls keeps the last 50 snapshots. -/
theorem foldl_saveState_past (snaps : List (List Node × List Edge)) :
    ∀ h0 : History, h0.past.length ≤ 50 →
      (snaps.foldl (fun h p => saveState h p.1 p.2 true) h0).past
        = takeLast 50 (h0.past ++ snaps.map (fun p => (⟨p.1, p.2⟩ : HistoryEntry))) := by
  induction snaps with
  | nil =>
    intro h0 hlen
    rw [List.map_nil, List.append_nil, List.foldl_nil, takeLast_of_le 50 _ hlen]
  | cons p ps ih =>
    intro h0 hlen
    have hstep : (saveState h0 p.1 p.2 true).past = takeLast 50 (h0.past ++ [⟨p.1, p.2⟩]) := by
      rw [saveState_past]
    have hlen' : (saveState h0 p.1 p.2 true).past.length ≤ 50 := by
      rw [hstep]; exact takeLast_length_le _ _
    rw [List.foldl_cons, ih _ hlen', hstep, takeLast_takeLast_append, List.append_assoc]
    rfl

/-- C7: past.length never exceeds 50 after any sequence of saveState calls
starting from an empty history, and after 60 sequential saveState calls past
has length 50 and holds exactly the 50 most recent entries in save order
(the 10 oldest are evicted). -/
theorem C7_history_bounded_size (snaps : List (List Node × List Edge)) :
    (snaps.foldl (fun h p => saveState h p.1 p.2 true) ⟨[], []⟩).past.length ≤ 50 ∧
    (snaps.length = 60 →
      (snaps.foldl (fun h p => saveState h p.1 p.2 true) ⟨[], []⟩).past
        = (snaps.map (fun p => (⟨p.1, p.2⟩ : HistoryEntry))).drop 10 ∧
      (snaps.foldl (fun h p => saveState h p.1 p.2 true) ⟨[], []⟩).past.length = 50) := by
  have hmain := foldl_saveState_past snaps ⟨[], []⟩ (by simp)
  simp only [List.nil_append] at hmain
  constructor
  · rw [hmain]; exact takeLast_length_le _ _
  · intro h60
    have hmaplen : (snaps.map (fun p => (⟨p.1, p.2⟩ : HistoryEntry))).length = 60 := by
      rw [List.length_map, h60]
    constructor
    · rw [hmain]; unfold takeLast; rw [hmaplen]
    · rw [hmain]; unfold takeLast; rw [List.length_drop, hmaplen]

/-- Witness for C7 at a concrete run of 60 saves. -/
theorem C7_history_bounded_size_witness :
    ((List.range 60).map (fun i => (([] : List Node), [(⟨toString i, "", "", none⟩ : Edge)]))).length
        = 60 ∧
    (((List.range 60).map
        (fun i => (([] : List Node), [(⟨toString i, "", "", none⟩ : Edge)]))).foldl
          (fun h p => saveState h p.1 p.2 true) ⟨[], []⟩).past
      = (((List.range 60).map
          (fun i => (([] : List Node), [(⟨toString i, "", "", none⟩ : Edge)]))).map
            (fun p => (⟨p.1, p.2⟩ : HistoryEntry))).drop 10 :=
  ⟨by decide,
   ((C7_history_bounded_size _).2 (by decide)).1⟩

/-- C2 counterexample: after pushToFuture of entry E1 and then entry E2, redo
returns E2 (the most recently pushed entry), not E1 as the claim states. -/
theorem C2_counterexample :
    (redo (pushToFuture (pushToFuture ⟨[], []⟩ [⟨"a", "text", .text "L" "A"⟩] [])
        [⟨"b", "text", .text "L" "B"⟩] [])).1
      = some ⟨[⟨"b", "text", .text "L" "B"⟩], []⟩ ∧
    some (⟨[⟨"b", "text", .text "L" "B"⟩], []⟩ : HistoryEntry)
      ≠ some (⟨[⟨"a", "text", .text "L" "A"⟩], []⟩ : HistoryEntry) := by
  constructor
  · rfl
  · decide

/-- C2 (amended): redo() pops the front of future, which is the most recently
pushed entry — future is LIFO with respect to pushToFuture (after pushing E1
then E2, redo() returns E2) — and returns null when future is empty;
pushToFuture copies its arguments into an entry prepended to future. -/
theorem C2_redo_lifo :
    (∀ h : History, h.future = [] → redo h = (none, h)) ∧
    (∀ (h : History) (nodes : List Node) (edges : List Edge),
      (pushToFuture h nodes edges).future = (⟨nodes, edges⟩ : HistoryEntry) :: h.future) ∧
    (∀ (h : History) (e : HistoryEntry) (rest : List HistoryEntry),
      h.future = e :: rest → redo h = (some e, { h with future := rest })) := by
  refine ⟨?_, ?_, ?_⟩
  · intro h hemp
    unfold redo
    rw [hemp]
  · intro h nodes edges
    rfl
  · intro h e rest hfut
    unfold redo
    rw [hfut]

/-- Witness for C2's amended theorem at a concrete two-push history. -/
theorem C2_redo_lifo_witness :
    redo ⟨[], [⟨[], [⟨"e2", "b", "t", none⟩]⟩, ⟨[], [⟨"e1", "a", "t", none⟩]⟩]⟩
      = (some ⟨[], [⟨"e2", "b", "t", none⟩]⟩, ⟨[], [⟨[], [⟨"e1", "a", "t", none⟩]⟩]⟩) :=
  C2_redo_lifo.2.2 _ _ _ rfl

/-! ## Connection validator theorems -/

/-- C9: a self-loop candidate is always rejected, for every node id, target
handle, node set and edge set. -/
theorem C9_self_loop_rejected (n : String) (th : Option String)
    (nodes : List Node) (edges : List Edge) :
    isValidConnection ⟨some n, some n, th⟩ nodes edges = false := by
  have hc : wouldCreateCycle n n edges = true := by
    unfold wouldCreateCycle
    rw [if_pos rfl]
  unfold isValidConnection
  simp only
  by_cases h0 : n = "" ∨ n = ""
  · rw [if_pos h0]
  · rw [if_neg h0]
    cases hcompat : isHandleCompatible ((nodes.find? (fun nd => nd.id == n)).map
        (fun nd => nd.type)) th
    · simp
    · simp [hc]

/-- C4 counterexample: an edge from a TextInput source to the non-null target
handle "output" is accepted even though the source's output type "text"
differs from the handle, falsifying the claim as stated (the sentinel
"output" is exempted from the compatibility check). -/
theorem C4_counterexample :
    isValidConnection ⟨some "a", some "t", some "output"⟩
        [⟨"a", "text", .text "L" "A"⟩] [] = true ∧
    getNodeOutputType (some "text") = some "text" ∧
    some "text" ≠ some "output" := by
  refine ⟨by decide, rfl, by decide⟩

/-- C4 (amended): for every edge accepted by isValidConnection whose
targetHandle is non-null, non-empty and not the sentinel "output", and whose
source node is found and has a recognised output type, that output type
equals the targetHandle. -/
theorem C4_type_compatibility (c : Connection) (nodes : List Node) (edges : List Edge)
    (src hdl ot : String) (node : Node)
    (hs : c.source = some src)
    (ht : c.targetHandle = some hdl)
    (hdl1 : hdl ≠ "") (hdl2 : hdl ≠ "output")
    (hn : nodes.find? (fun nd => nd.id == src) = some node)
    (hot : getNodeOutputType (some node.type) = some ot)
    (hacc : isValidConnection c nodes edges = true) :
    ot = hdl := by
  unfold isValidConnection at hacc
  rw [hs] at hacc
  rcases hct : c.target with _ | tgt
  · rw [hct] at hacc
    exact absurd hacc (by simp)
  · rw [hct] at hacc
    simp only at hacc
    by_cases h0 : src = "" ∨ tgt = ""
    · rw [if_pos h0] at hacc
      exact absurd hacc (by simp)
    · rw [if_neg h0, hn] at hacc
      cases hcompat : isHandleCompatible (some node.type) c.targetHandle
      · rw [show ((some node : Option Node).map (fun nd => nd.type)) = some node.type from rfl,
          hcompat] at hacc
        exact absurd hacc (by simp)
      · unfold isHandleCompatible at hcompat
        rw [hot, ht] at hcompat
        simp only [if_neg hdl1, if_neg hdl2, beq_iff_eq] at hcompat
        exact hcompat

/-- Witness for C4's amended theorem: a concrete accepted text-to-text edge. -/
theorem C4_type_compatibility_witness :
    isValidConnection ⟨some "a", some "t", some "text"⟩
        [⟨"a", "text", .text "L" "A"⟩] [] = true ∧ "text" = "text" :=
  ⟨by decide,
   C4_type_compatibility ⟨some "a", some "t", some "text"⟩
     [⟨"a", "text", .text "L" "A"⟩] [] "a" "text" "text" ⟨"a", "text", .text "L" "A"⟩
     rfl rfl (by decide) (by decide) rfl rfl (by decide)⟩

/-! ## Input resolver theorems -/

/-- C3: divergence witness.  For an ImageDescribe target with one connected
image and an empty prompt field, the resolver appends the generic
"No text input provided" error as well — the code's final validation fires
whenever userMessage is empty, for ImageDescribe targets included, because
the ImageDescribe exemption sits on the wrong side of the disjunction. -/
theorem C3_imgDescribe_gets_generic_error :
    collectLLMInputs "d"
        [⟨"i", "image", .image "L" (some "QUJD") (some "f.png") (some "image/png")⟩,
         ⟨"d", "imgDescribe", .imgDescribe "L" "m" "" "" false none⟩]
        [⟨"ei", "i", "d", some "image"⟩]
      = ⟨none, none, ["data:image/png;base64,QUJD"], [instructionMsg, noTextMsg]⟩ := by
  rfl

/-- C6: a target with zero incoming edges yields exactly the single
context-appropriate no-inputs error with all other fields empty — for an
LLM target the text wording, for an ImageDescribe target the image wording. -/
theorem C6_missing_input_error (tId : String) (nodes : List Node) (edges : List Edge)
    (node : Node)
    (hfind : nodes.find? (fun n => n.id == tId) = some node)
    (hnoedges : edges.filter (fun e => e.target == tId) = []) :
    (node.type = "llm" →
      collectLLMInputs tId nodes edges = ⟨none, none, [], [noInputsTextMsg]⟩) ∧
    (node.type = "imgDescribe" →
      collectLLMInputs tId nodes edges = ⟨none, none, [], [noInputsImageMsg]⟩) := by
  unfold collectLLMInputs
  rw [hfind, hnoedges]
  simp only [List.isEmpty_nil, if_true]
  constructor
  · intro hllm
    rw [if_neg (by rw [hllm]; decide)]
  · intro himg
    rw [if_pos himg]

/-- Witness for C6 at a concrete LLM node with no edges. -/
theorem C6_missing_input_error_witness :
    collectLLMInputs "t" [⟨"t", "llm", .llm "L" "m" "" false none⟩] []
      = ⟨none, none, [], [noInputsTextMsg]⟩ :=
  (C6_missing_input_error "t" [⟨"t", "llm", .llm "L" "m" "" false none⟩] []
    ⟨"t", "llm", .llm "L" "m" "" false none⟩ rfl rfl).1 rfl

/-- C8: whenever the resolver reports at least one error for a target of kind
llm or imgDescribe, executeLLMNode fails with exactly the first error and
never reaches the external LLM call (the outcome is a failure, not a
callLLM request). -/
theorem C8_short_circuit_first_error (tId : String) (nodes : List Node) (edges : List Edge)
    (node : Node) (e : String) (rest : List String)
    (hfind : nodes.find? (fun n => n.id == tId) = some node)
    (hkind : node.type = "llm" ∨ node.type = "imgDescribe")
    (herr : (collectLLMInputs tId nodes edges).errors = e :: rest) :
    executeLLMNode tId nodes edges = .failure e := by
  unfold executeLLMNode
  rw [hfind]
  have hne : ¬(node.type ≠ "llm" ∧ node.type ≠ "imgDescribe") := by
    rcases hkind with h | h <;> simp [h]
  simp only [if_neg hne, herr]

/-- Witness for C8 at a concrete LLM node with no inputs. -/
theorem C8_short_circuit_first_error_witness :
    executeLLMNode "t" [⟨"t", "llm", .llm "L" "m" "" false none⟩] []
      = .failure noInputsTextMsg :=
  C8_short_circuit_first_error "t" [⟨"t", "llm", .llm "L" "m" "" false none⟩] []
    ⟨"t", "llm", .llm "L" "m" "" false none⟩ noInputsTextMsg [] rfl (Or.inl rfl) rfl

/-- C10: an edge from an ImageDescribe source into a text handle passes the
compatibility check (ImageDescribe outputs "text"), yet the resolver's
per-edge dispatch for the text handle accepts only text, system and llm
sources, so such an edge leaves the collected inputs unchanged. -/
theorem C10_imgDescribe_text_edge_inert :
    isHandleCompatible (some "imgDescribe") (some "text") = true ∧
    (∀ (nodes : List Node) (acc : CollectedInputs) (e : Edge) (srcNode : Node),
      nodes.find? (fun n => n.id == e.source) = some srcNode →
      srcNode.type = "imgDescribe" →
      e.targetHandle = some "text" →
      processEdge nodes acc e = acc) := by
  constructor
  · decide
  · intro nodes acc e srcNode hfind htype hhandle
    unfold processEdge
    rw [hfind, hhandle]
    simp only [htype]
    rw [if_neg (by decide), if_neg (by decide)]

/-- Witness for C10's second component at a concrete ImageDescribe source. -/
theorem C10_imgDescribe_text_edge_inert_witness :
    processEdge [⟨"s", "imgDescribe", .imgDescribe "L" "m" "p" "OUT" false none⟩]
        ⟨none, none, [], []⟩ ⟨"e", "s", "t", some "text"⟩
      = ⟨none, none, [], []⟩ :=
  C10_imgDescribe_text_edge_inert.2 _ _ _ _ rfl rfl rfl

/-- Evaluation of String.trim on the literal "A" (the kernel cannot reduce
the well-founded Substring loops, so the two passes are unfolded once). -/
theorem trim_eq_self_A : "A".trim = "A" := by
  have hb : Substring.takeWhileAux "A" "A".endPos Char.isWhitespace ⟨0⟩ = ⟨0⟩ := by
    unfold Substring.takeWhileAux
    norm_num
    decide
  have he : Substring.takeRightWhileAux "A" ⟨0⟩ Char.isWhitespace "A".endPos = "A".endPos := by
    unfold Substring.takeRightWhileAux
    norm_num
    decide
  show Substring.toString (Substring.trim ⟨"A", ⟨0⟩, "A".endPos⟩) = "A"
  unfold Substring.trim
  simp only [hb, he]
  decide

/-- Evaluation of String.trim on the literal "B". -/
theorem trim_eq_self_B : "B".trim = "B" := by
  have hb : Substring.takeWhileAux "B" "B".endPos Char.isWhitespace ⟨0⟩ = ⟨0⟩ := by
    unfold Substring.takeWhileAux
    norm_num
    decide
  have he : Substring.takeRightWhileAux "B" ⟨0⟩ Char.isWhitespace "B".endPos = "B".endPos := by
    unfold Substring.takeRightWhileAux
    norm_num
    decide
  show Substring.toString (Substring.trim ⟨"B", ⟨0⟩, "B".endPos⟩) = "B"
  unfold Substring.trim
  simp only [hb, he]
  decide

/-- Evaluation of String.trim on the joined literal "A\n\nB". -/
theorem trim_eq_self_AB : "A\n\nB".trim = "A\n\nB" := by
  have hb : Substring.takeWhileAux "A\n\nB" "A\n\nB".endPos Char.isWhitespace ⟨0⟩ = ⟨0⟩ := by
    unfold Substring.takeWhileAux
    norm_num
    decide
  have he : Substring.takeRightWhileAux "A\n\nB" ⟨0⟩ Char.isWhitespace "A\n\nB".endPos
      = "A\n\nB".endPos := by
    unfold Substring.takeRightWhileAux
    norm_num
    decide
  show Substring.toString (Substring.trim ⟨"A\n\nB", ⟨0⟩, "A\n\nB".endPos⟩) = "A\n\nB"
  unfold Substring.trim
  simp only [hb, he]
  decide

/-- C5: an LLM target with exactly two incoming text-handle edges from
TextInput nodes carrying "A" and "B" (in that edge-array order) resolves to
userMessage "A\n\nB" — the trimmed contributions joined by a blank line in
edge order — with no errors. -/
theorem C5_multi_source_join (aId bId tId la lb : String) (dt : NodeData)
    (hab : aId ≠ bId) (hat : aId ≠ tId) (hbt : bId ≠ tId) :
    collectLLMInputs tId
        [⟨aId, "text", .text la "A"⟩, ⟨bId, "text", .text lb "B"⟩, ⟨tId, "llm", dt⟩]
        [⟨"e1", aId, tId, some "text"⟩, ⟨"e2", bId, tId, some "text"⟩]
      = ⟨none, some "A\n\nB", [], []⟩ := by
  have h1 : (aId == tId) = false := beq_eq_false_iff_ne.mpr hat
  have h2 : (bId == tId) = false := beq_eq_false_iff_ne.mpr hbt
  have h3 : (aId == bId) = false := beq_eq_false_iff_ne.mpr hab
  unfold collectLLMInputs
  simp +decide only [List.filter, List.find?, List.foldl, List.isEmpty,
    beq_self_eq_true, h1, h2, h3, if_true, if_false,
    processEdge, NodeData.contentField, appendChunk,
    imgDescribePostStep, finalCheckFires]
  simp +decide only [trim_eq_self_A, trim_eq_self_B, if_true, if_false,
    show ("A" : String) ++ "\n\n" ++ "B" = "A\n\nB" from by decide, trim_eq_self_AB]

/-- Witness for C5 at concrete node ids. -/
theorem C5_multi_source_join_witness :
    collectLLMInputs "t"
        [⟨"a", "text", .text "L" "A"⟩, ⟨"b", "text", .text "L" "B"⟩,
         ⟨"t", "llm", .llm "L" "m" "" false none⟩]
        [⟨"e1", "a", "t", some "text"⟩, ⟨"e2", "b", "t", some "text"⟩]
      = ⟨none, some "A\n\nB", [], []⟩ :=
  C5_multi_source_join "a" "b" "t" "L" "L" (.llm "L" "m" "" false none)
    (by decide) (by decide) (by decide)

/-! ## Graph reachability lemmas for the acyclicity invariant -/

theorem Reach.trans {E : List Edge} {a b c : String}
    (h1 : Reach E a b) : Reach E b c → Reach E a c := by
  induction h1 with
  | refl => exact id
  | head hs _ ih => exact fun h2 => Reach.head hs (ih h2)

theorem edgeStep_append {E : List Edge} {e : Edge} {a b : String} :
    edgeStep (E ++ [e]) a b ↔ edgeStep E a b ∨ (e.source = a ∧ e.target = b) := by
  unfold edgeStep adjacencyList
  simp only [List.mem_map, List.mem_filter, List.mem_append, List.mem_singleton, beq_iff_eq]
  constructor
  · rintro ⟨x, ⟨hx | hx, hsrc⟩, htgt⟩
    · exact Or.inl ⟨x, ⟨hx, hsrc⟩, htgt⟩
    · subst hx
      exact Or.inr ⟨hsrc, htgt⟩
  · rintro (⟨x, ⟨hx, hsrc⟩, htgt⟩ | ⟨hsrc, htgt⟩)
    · exact ⟨x, ⟨Or.inl hx, hsrc⟩, htgt⟩
    · exact ⟨e, ⟨Or.inr rfl, hsrc⟩, htgt⟩

/-- A path in the extended graph either avoids the new edge entirely or can
be restarted (after its last use of the new edge) from the new edge's
target. -/
theorem reach_append_elim {E : List Edge} {e : Edge} {a b : String}
    (h : Reach (E ++ [e]) a b) : Reach E a b ∨ Reach E e.target b := by
  induction h with
  | refl => exact Or.inl (Reach.refl _)
  | head hs _ ih =>
    rcases ih with ih | ih
    · rcases edgeStep_append.mp hs with h' | ⟨hsrc, htgt⟩
      · exact Or.inl (Reach.head h' ih)
      · subst htgt
        exact Or.inr ih
    · exact Or.inr ih

/-- A path in the extended graph either avoids the new edge or splits at its
first use: an old-graph path to the new edge's source, then the rest from
the new edge's target. -/
theorem reach_append_split {E : List Edge} {e : Edge} {a b : String}
    (h : Reach (E ++ [e]) a b) :
    Reach E a b ∨ (Reach E a e.source ∧ Reach (E ++ [e]) e.target b) := by
  induction h with
  | refl => exact Or.inl (Reach.refl _)
  | head hs hr ih =>
    rcases edgeStep_append.mp hs with h' | ⟨hsrc, htgt⟩
    · rcases ih with ih | ⟨ih1, ih2⟩
      · exact Or.inl (Reach.head h' ih)
      · exact Or.inr ⟨Reach.head h' ih1, ih2⟩
    · subst hsrc
      subst htgt
      exact Or.inr ⟨Reach.refl _, hr⟩

/-- Adding an edge whose target cannot already reach its source keeps the
graph acyclic. -/
theorem addEdge_preserves_acyclic {E : List Edge} {e : Edge}
    (hacy : Acyclic E) (hnr : ¬ Reach E e.target e.source) :
    Acyclic (E ++ [e]) := by
  rintro ⟨n, m, hstep, hreach⟩
  rcases edgeStep_append.mp hstep with hstep' | ⟨hsrc, htgt⟩
  · rcases reach_append_split hreach with hr | ⟨hr1, hr2⟩
    · exact hacy ⟨n, m, hstep', hr⟩
    · rcases reach_append_elim hr2 with hr2' | hr2' <;>
        exact hnr (Reach.trans hr2' (Reach.head hstep' hr1))
  · subst hsrc
    subst htgt
    rcases reach_append_elim hreach with hr | hr <;> exact hnr hr

/-! ## Correctness of the wouldCreateCycle DFS -/

theorem adjacencyList_length_le (E : List Edge) (x : String) :
    (adjacencyList E x).length ≤ E.length := by
  unfold adjacencyList
  rw [List.length_map]
  exact List.length_filter_le _ _

theorem self_mem_cycleUniverse (t : String) (E : List Edge) : t ∈ cycleUniverse t E := by
  induction E with
  | nil => simp [cycleUniverse]
  | cons e es ih =>
    simp only [cycleUniverse, List.foldr_cons] at *
    exact Finset.mem_insert_of_mem (Finset.mem_insert_of_mem ih)

theorem target_mem_cycleUniverse {E : List Edge} {e : Edge} (t : String) (he : e ∈ E) :
    e.target ∈ cycleUniverse t E := by
  induction E with
  | nil => cases he
  | cons f fs ih =>
    simp only [cycleUniverse, List.foldr_cons]
    rcases List.mem_cons.mp he with h | h
    · subst h
      exact Finset.mem_insert_of_mem (Finset.mem_insert_self _ _)
    · exact Finset.mem_insert_of_mem (Finset.mem_insert_of_mem (ih h))

theorem mem_adjacency_mem_cycleUniverse {E : List Edge} {x n : String} (t : String)
    (hn : n ∈ adjacencyList E x) : n ∈ cycleUniverse t E := by
  unfold adjacencyList at hn
  rcases List.mem_map.mp hn with ⟨e, he, htgt⟩
  subst htgt
  exact target_mem_cycleUniverse t (List.mem_of_mem_filter he)

/-- If a vertex set is closed under successors, reachability stays inside. -/
theorem reach_mem_closed {E : List Edge} {V : List String}
    (hcl : ∀ v ∈ V, ∀ n ∈ adjacencyList E v, n ∈ V) {a b : String}
    (hr : Reach E a b) (ha : a ∈ V) : b ∈ V := by
  induction hr with
  | refl => exact ha
  | head hs _ ih => exact ih (hcl _ ha _ hs)

/-- What a completed, unsuccessful DFS run guarantees: with enough fuel, a
`(false, V)` result means every initially-visited and every stacked node ends
in `V`, the sought node is not in `V`, and `V` is closed under successors off
the initial visited set.  The fuel bound is the standard O(V·E) work bound of
the stack-based search. -/
theorem dfsLoop_false_spec (edges : List Edge) (sourceId : String)
    (univ : Finset String) (Eb : Nat)
    (hadj : ∀ x, (adjacencyList edges x).length ≤ Eb)
    (hcl : ∀ x n, n ∈ adjacencyList edges x → n ∈ univ) :
    ∀ (fuel : Nat) (stack visited V : List String),
      (∀ x ∈ stack, x ∈ univ) →
      sourceId ∉ visited →
      (univ \ visited.toFinset).card * (Eb + 1) + stack.length + 1 ≤ fuel →
      dfsLoop edges sourceId fuel stack visited = (false, V) →
      visited ⊆ V ∧ (∀ x ∈ stack, x ∈ V) ∧ sourceId ∉ V ∧
        (∀ v ∈ V, v ∉ visited → ∀ n ∈ adjacencyList edges v, n ∈ V) := by
  intro fuel
  induction fuel with
  | zero =>
    intro stack visited V _ _ hfuel _
    exact absurd hfuel (Nat.not_succ_le_zero _)
  | succ f ih =>
    intro stack visited V hstack hsrc hfuel hrun
    rcases stack with _ | ⟨current, rest⟩
    · simp only [dfsLoop, Prod.mk.injEq] at hrun
      obtain ⟨_, hV⟩ := hrun
      subst hV
      refine ⟨fun x hx => hx, by simp, hsrc, ?_⟩
      intro v hv hvnot
      exact absurd hv hvnot
    · simp only [dfsLoop] at hrun
      by_cases hcs : current = sourceId
      · rw [if_pos hcs] at hrun
        exact absurd hrun (by simp)
      · rw [if_neg hcs] at hrun
        by_cases hcv : current ∈ visited
        · rw [if_pos hcv] at hrun
          have hfuel' :
              (univ \ visited.toFinset).card * (Eb + 1) + rest.length + 1 ≤ f := by
            simp only [List.length_cons] at hfuel
            omega
          obtain ⟨ih1, ih2, ih3, ih4⟩ :=
            ih rest visited V (fun x hx => hstack x (List.mem_cons_of_mem _ hx)) hsrc hfuel' hrun
          refine ⟨ih1, ?_, ih3, ih4⟩
          intro x hx
          rcases List.mem_cons.mp hx with h | h
          · subst h
            exact ih1 hcv
          · exact ih2 x h
        · rw [if_neg hcv] at hrun
          have hcu : current ∈ univ := hstack current (List.mem_cons_self _ _)
          have hmemdiff : current ∈ univ \ visited.toFinset :=
            Finset.mem_sdiff.mpr ⟨hcu, fun hm => hcv (List.mem_toFinset.mp hm)⟩
          have hcard :
              (univ \ (current :: visited).toFinset).card + 1
                = (univ \ visited.toFinset).card := by
            have hset : univ \ (current :: visited).toFinset
                = (univ \ visited.toFinset).erase current := by
              ext x
              simp only [List.toFinset_cons, Finset.mem_sdiff, Finset.mem_insert,
                Finset.mem_erase]
              tauto
            rw [hset, Finset.card_erase_of_mem hmemdiff]
            have := Finset.card_pos.mpr ⟨current, hmemdiff⟩
            omega
          have hpl :
              (((adjacencyList edges current).filter
                (fun n => !((current :: visited).contains n))).reverse).length ≤ Eb := by
            rw [List.length_reverse]
            exact le_trans (List.length_filter_le _ _) (hadj current)
          have hfuel' :
              (univ \ (current :: visited).toFinset).card * (Eb + 1)
                + (((adjacencyList edges current).filter
                  (fun n => !((current :: visited).contains n))).reverse ++ rest).length
                + 1 ≤ f := by
            rw [List.length_append]
            have hcm : (univ \ visited.toFinset).card * (Eb + 1)
                = (univ \ (current :: visited).toFinset).card * (Eb + 1) + (Eb + 1) := by
              rw [← hcard, Nat.add_mul, Nat.one_mul]
            rw [hcm] at hfuel
            simp only [List.length_cons] at hfuel
            omega
          have hstack' :
              ∀ x ∈ ((adjacencyList edges current).filter
                (fun n => !((current :: visited).contains n))).reverse ++ rest, x ∈ univ := by
            intro x hx
            rcases List.mem_append.mp hx with h | h
            · exact hcl current x (List.mem_of_mem_filter (List.mem_reverse.mp h))
            · exact hstack x (List.mem_cons_of_mem _ h)
          have hsrc' : sourceId ∉ current :: visited := by
            intro hm
            rcases List.mem_cons.mp hm with h | h
            · exact hcs h.symm
            · exact hsrc h
          obtain ⟨ih1, ih2, ih3, ih4⟩ := ih _ _ V hstack' hsrc' hfuel' hrun
          have hcurV : current ∈ V := ih1 (List.mem_cons_self _ _)
          refine ⟨fun x hx => ih1 (List.mem_cons_of_mem _ hx), ?_, ih3, ?_⟩
          · intro x hx
            rcases List.mem_cons.mp hx with h | h
            · subst h
              exact hcurV
            · exact ih2 x (List.mem_append.mpr (Or.inr h))
          · intro v hv hvnot n hn
            by_cases hvc : v = current
            · rw [hvc] at hn
              by_cases hnv : n ∈ current :: visited
              · exact ih1 hnv
              · refine ih2 n (List.mem_append.mpr (Or.inl ?_))
                refine List.mem_reverse.mpr (List.mem_filter.mpr ⟨hn, ?_⟩)
                simp [List.contains, List.elem_eq_mem, hnv]
            · have hvnot' : v ∉ current :: visited := by
                intro hm
                rcases List.mem_cons.mp hm with h | h
                · exact hvc h
                · exact hvnot h
              exact ih4 v hv hvnot' n hn

/-- A negative wouldCreateCycle verdict is trustworthy: the target really
cannot reach the source through the existing edges. -/
theorem wouldCreateCycle_false_not_reach {s t : String} {E : List Edge}
    (h : wouldCreateCycle s t E = false) : ¬ Reach E t s := by
  unfold wouldCreateCycle at h
  by_cases hst : s = t
  · rw [if_pos hst] at h
    exact absurd h (by simp)
  · rw [if_neg hst] at h
    dsimp only at h
    rcases hd : dfsLoop E s ((cycleUniverse t E).card * (E.length + 1) + 2) [t] [] with ⟨b, V⟩
    rw [hd] at h
    simp only at h
    subst h
    obtain ⟨_, h2, h3, h4⟩ :=
      dfsLoop_false_spec E s (cycleUniverse t E) E.length
        (adjacencyList_length_le E)
        (fun x n hn => mem_adjacency_mem_cycleUniverse t hn)
        ((cycleUniverse t E).card * (E.length + 1) + 2) [t] [] V
        (by
          intro x hx
          rw [List.mem_singleton] at hx
          rw [hx]
          exact self_mem_cycleUniverse t E)
        (List.not_mem_nil _)
        (by simp)
        hd
    intro hreach
    have hcl : ∀ v ∈ V, ∀ n ∈ adjacencyList E v, n ∈ V := by
      intro v hv n hn
      exact h4 v hv (List.not_mem_nil _) n hn
    exact h3 (reach_mem_closed hcl hreach (h2 t (List.mem_singleton_self _)))

/-- An accepted connection passed the cycle check. -/
theorem isValidConnection_true_no_cycle {s t : String} {th : Option String}
    {nodes : List Node} {E : List Edge}
    (h : isValidConnection ⟨some s, some t, th⟩ nodes E = true) :
    wouldCreateCycle s t E = false := by
  unfold isValidConnection at h
  simp only at h
  by_cases h0 : s = "" ∨ t = ""
  · rw [if_pos h0] at h
    exact absurd h (by simp)
  · rw [if_neg h0] at h
    cases hcompat : isHandleCompatible
        ((nodes.find? (fun n => n.id == s)).map (fun n => n.type)) th
    · rw [hcompat] at h
      exact absurd h (by simp)
    · rw [hcompat] at h
      cases hcyc : wouldCreateCycle s t E
      · rfl
      · rw [hcyc] at h
        exact absurd h (by simp)

/-- Gate-kept edge addition preserves acyclicity. -/
theorem addValidated_preserves_acyclic (nodes : List Node) (E : List Edge) (c : Connection)
    (hacy : Acyclic E) : Acyclic (addValidated nodes E c) := by
  unfold addValidated
  rcases c with ⟨src, tgt, th⟩
  rcases src with _ | s
  · exact hacy
  rcases tgt with _ | t
  · exact hacy
  simp only
  cases hv : isValidConnection ⟨some s, some t, th⟩ nodes E
  · simpa using hacy
  · rw [if_pos rfl]
    have hnr := wouldCreateCycle_false_not_reach (isValidConnection_true_no_cycle hv)
    exact addEdge_preserves_acyclic hacy hnr

/-- C1: from any acyclic starting graph, any sequence of candidate
connections, each added exactly when accepted by isValidConnection (which
includes the wouldCreateCycle check), leaves the directed graph acyclic. -/
theorem C1_acyclicity_invariant (nodes : List Node) (E0 : List Edge)
    (cs : List Connection) (hacy : Acyclic E0) :
    Acyclic (cs.foldl (addValidated nodes) E0) := by
  induction cs generalizing E0 with
  | nil => exact hacy
  | cons c cs ih => exact ih _ (addValidated_preserves_acyclic nodes E0 c hacy)

/-- The empty graph is acyclic. -/
theorem acyclic_nil : Acyclic ([] : List Edge) := by
  rintro ⟨a, b, hs, _⟩
  simp [edgeStep, adjacencyList] at hs

/-- Witness for C1: a concrete accepted two-candidate run from the empty
graph stays acyclic. -/
theorem C1_acyclicity_invariant_witness :
    Acyclic (List.foldl
      (addValidated [⟨"a", "text", .text "L" "A"⟩, ⟨"t", "llm", .llm "L" "m" "" false none⟩])
      [] [⟨some "a", some "t", some "text"⟩, ⟨some "t", some "a", some "output"⟩]) :=
  C1_acyclicity_invariant _ _ _ acyclic_nil

end WorkflowBuilder
